import Mathlib

/-!
Verification of the conduit-expose collection-and-aggregation engine.

The Go sources are shallowly embedded: Go `float64` values are modelled as
exact rationals (ℚ), Go `int`/`int64` as ℤ, Go `uint64` counters as ℕ with
explicit wrap-around (mod 2^64) where the source subtracts them, Go maps as
association lists with unique keys, and `time.Time` as a rational timestamp
whose zero value is the rational 0.
-/

/-- Go `math.Round`: round to the nearest integer, halves away from zero. -/
def goRound (q : ℚ) : ℤ :=
  if q < 0 then -⌊-q + 1/2⌋ else ⌊q + 1/2⌋

/-- The source's two-decimal rounding idiom `math.Round(x*100)/100`. -/
def round2 (q : ℚ) : ℚ :=
  (goRound (q * 100) : ℚ) / 100

/-- Go `uint64` subtraction `a - b` (wraps modulo 2^64); inputs are assumed
already reduced below 2^64. -/
def wrapSub (a b : ℕ) : ℕ :=
  (a + 2 ^ 64 - b) % 2 ^ 64

/-- Reinterpretation of a `uint64` bit pattern as Go `int64`. -/
def toInt64 (n : ℕ) : ℤ :=
  if n % 2 ^ 64 < 2 ^ 63 then (n % 2 ^ 64 : ℤ) else (n % 2 ^ 64 : ℤ) - 2 ^ 64

/-! ### Session Tracker (src/unnamed/part_000)

`SessionTracker` carries rolling aggregation state across poll cycles.
The mutex is irrelevant to the sequential semantics and is dropped;
`startTime` is a rational timestamp (zero value = 0). -/

structure SessionTracker where
  startTime    : ℚ
  peakConns    : ℤ
  sampleCount  : ℤ
  connSum      : ℤ
  lastUpload   : ℚ
  lastDownload : ℚ
  deriving Repr, DecidableEq

/-- `NewSessionTracker` starts the tracker now with zeroed counters. -/
def SessionTracker.new (now : ℚ) : SessionTracker :=
  { startTime := now, peakConns := 0, sampleCount := 0, connSum := 0,
    lastUpload := 0, lastDownload := 0 }

/-- `SessionTracker.Update` from src/unnamed/part_000 lines 31-55: detect a
counter regression (reset peak/count/sum), recompute the start time from the
supplied uptime, fold in the new sample, and record the cumulative counters
as the new baseline.  `now` stands for Go's `time.Now()`. -/
def SessionTracker.Update (s : SessionTracker) (totalConnected : ℤ)
    (totalUpload totalDownload uptimeSeconds now : ℚ) : SessionTracker :=
  let s1 :=
    if totalUpload < s.lastUpload ∨ totalDownload < s.lastDownload then
      { s with peakConns := 0, sampleCount := 0, connSum := 0 }
    else s
  let s2 :=
    if 0 < uptimeSeconds then { s1 with startTime := now - uptimeSeconds } else s1
  let s3 :=
    if s2.peakConns < totalConnected then { s2 with peakConns := totalConnected } else s2
  { s3 with
      sampleCount := s3.sampleCount + 1,
      connSum := s3.connSum + totalConnected,
      lastUpload := totalUpload,
      lastDownload := totalDownload }

/-- `SessionTracker.UpdateFromCM` from src/unnamed/part_000 lines 59-72:
the external peak replaces the current one only when strictly greater, and
the external start time replaces the current one only when non-zero
(`time.Time.IsZero` is modelled as equality with the rational 0). -/
def SessionTracker.UpdateFromCM (s : SessionTracker) (cmPeak : ℤ) (cmStartTime : ℚ) :
    SessionTracker :=
  let s1 := if s.peakConns < cmPeak then { s with peakConns := cmPeak } else s
  if cmStartTime ≠ 0 then { s1 with startTime := cmStartTime } else s1

/-- `SessionTracker.Snapshot`: the average is `connSum / sampleCount`, or 0
when no samples were taken. -/
def SessionTracker.avgConnections (s : SessionTracker) : ℚ :=
  if 0 < s.sampleCount then (s.connSum : ℚ) / (s.sampleCount : ℚ) else 0

/-! ### Rate/Delta Engine (src/system.go, `readCPU` and `readNetwork`)

Both functions keep one previous-sample slot; the package-level variables
`prevCPU`, `prevNet`, `prevNetTime` are modelled by explicit state passing
(the returned first component is the new previous slot).  `prevNet` and
`prevNetTime` are always written together and `time.Now()` is never the zero
time, so the pair is modelled as a single `Option`. -/

structure cpuSample where
  idle  : ℕ
  total : ℕ
  deriving Repr, DecidableEq

/-- The delta computation of `readCPU` (src/system.go lines 95-105): with a
previous sample and a positive (wrapped `uint64`) total delta, CPUPercent is
`(1 - idleDelta/totalDelta) * 100` rounded to two decimals; otherwise the
metrics field keeps its zero value. -/
def readCPU (prev : Option cpuSample) (current : cpuSample) : Option cpuSample × ℚ :=
  match prev with
  | none => (some current, 0)
  | some p =>
      let totalDelta : ℚ := (wrapSub current.total p.total : ℚ)
      let idleDelta : ℚ := (wrapSub current.idle p.idle : ℚ)
      if 0 < totalDelta then
        (some current, round2 ((1 - idleDelta / totalDelta) * 100))
      else
        (some current, 0)

/-- One parsed row of `/proc/net/dev` (an interface name and its counters). -/
structure netIfaceRow where
  name      : String
  rxBytes   : ℕ
  rxErrors  : ℕ
  rxDropped : ℕ
  txBytes   : ℕ
  txErrors  : ℕ
  txDropped : ℕ
  deriving Repr, DecidableEq

structure netSample where
  rxBytes   : ℕ
  txBytes   : ℕ
  rxErrors  : ℕ
  txErrors  : ℕ
  rxDropped : ℕ
  txDropped : ℕ
  deriving Repr, DecidableEq

/-- The accumulation loop of `readNetwork`: counters of every interface other
than `lo` are summed into one `netSample`. -/
def netAccum (rows : List netIfaceRow) : netSample :=
  rows.foldl
    (fun acc r =>
      if r.name = "lo" then acc
      else
        { rxBytes := acc.rxBytes + r.rxBytes, txBytes := acc.txBytes + r.txBytes,
          rxErrors := acc.rxErrors + r.rxErrors, txErrors := acc.txErrors + r.txErrors,
          rxDropped := acc.rxDropped + r.rxDropped, txDropped := acc.txDropped + r.txDropped })
    ⟨0, 0, 0, 0, 0, 0⟩

/-- The network fields of `SystemMetrics` written by `readNetwork`. -/
structure NetMetrics where
  NetInMbps  : ℚ
  NetOutMbps : ℚ
  NetErrors  : ℤ
  NetDrops   : ℤ
  deriving Repr, DecidableEq

/-- `readNetwork` (src/system.go lines 169-229): sums non-loopback interface
counters, and when a previous sample exists and elapsed time is positive,
reports Mbps as `delta * 8 / (elapsed * 1e6)` rounded to two decimals and
error/drop figures as plain (wrapped `uint64`) counter differences converted
to `int64`. -/
def readNetwork (prev : Option (netSample × ℚ)) (rows : List netIfaceRow) (now : ℚ) :
    (netSample × ℚ) × NetMetrics :=
  let current := netAccum rows
  match prev with
  | none => ((current, now), ⟨0, 0, 0, 0⟩)
  | some (p, t) =>
      let elapsed := now - t
      if 0 < elapsed then
        let rxDelta : ℚ := (wrapSub current.rxBytes p.rxBytes : ℚ)
        let txDelta : ℚ := (wrapSub current.txBytes p.txBytes : ℚ)
        ((current, now),
          { NetInMbps := round2 (rxDelta * 8 / (elapsed * 1000000)),
            NetOutMbps := round2 (txDelta * 8 / (elapsed * 1000000)),
            NetErrors := toInt64 ((wrapSub current.rxErrors p.rxErrors +
                wrapSub current.txErrors p.txErrors) % 2 ^ 64),
            NetDrops := toInt64 ((wrapSub current.rxDropped p.rxDropped +
                wrapSub current.txDropped p.txDropped) % 2 ^ 64) })
      else
        ((current, now), ⟨0, 0, 0, 0⟩)

/-! ### Go map model

Go maps with string keys are modelled as association lists with at most one
entry per key; `mapIncr` is the statement `m[k] += v` (which inserts the key
when absent) and `mapGet` is the read `m[k]` (0 when absent). -/

def mapGet : List (String × ℤ) → String → ℤ
  | [], _ => 0
  | (k', v) :: rest, k => if k' = k then v else mapGet rest k

def mapIncr : List (String × ℤ) → String → ℤ → List (String × ℤ)
  | [], k, v => [(k, v)]
  | (k', v') :: rest, k, v =>
      if k' = k then (k', v' + v) :: rest else (k', v') :: mapIncr rest k v

/-- Sum of all values of an association list (for a Go map: the sum over all
keys, since keys are unique). -/
def valsSum (m : List (String × ℤ)) : ℤ :=
  (m.map (fun p => p.2)).sum

/-- Sum of the values stored under key `k`, counting duplicate keys; on maps
(unique keys) this agrees with `mapGet`. -/
def keyTotal (m : List (String × ℤ)) (k : String) : ℤ :=
  ((m.filter (fun p => p.1 = k)).map (fun p => p.2)).sum

/-! ### Connection Table Decoder (src/system.go, `parseHexAddr` and friends)

IP addresses are byte lists (4 bytes for IPv4, 16 for IPv6); hex strings are
character lists. -/

/-- One hex digit, as accepted by Go `encoding/hex`. -/
def hexDigit (c : Char) : Option ℕ :=
  if '0' ≤ c ∧ c ≤ '9' then some (c.toNat - '0'.toNat)
  else if 'a' ≤ c ∧ c ≤ 'f' then some (c.toNat - 'a'.toNat + 10)
  else if 'A' ≤ c ∧ c ≤ 'F' then some (c.toNat - 'A'.toNat + 10)
  else none

/-- Go `hex.DecodeString`: fails on odd length or any non-hex character. -/
def hexDecode : List Char → Option (List ℕ)
  | [] => some []
  | [_] => none
  | hi :: lo :: rest => do
      let h ← hexDigit hi
      let l ← hexDigit lo
      let tail ← hexDecode rest
      pure ((h * 16 + l) :: tail)

/-- Go `strings.SplitN(s, ":", 2)` followed by the two-parts check: split at
the first colon, failing when there is none. -/
def splitColon : List Char → Option (List Char × List Char)
  | [] => none
  | c :: rest =>
      if c = ':' then some ([], rest)
      else
        match splitColon rest with
        | some (a, b) => some (c :: a, b)
        | none => none

/-- `parseHexAddr` (src/system.go lines 374-419): split `HEXADDR:HEXPORT` at
the colon; the port is two big-endian bytes; a 4-byte IPv4 address is stored
little-endian and is reversed; a 16-byte IPv6 address is stored as four
32-bit little-endian words and each word's 4 bytes are reversed
individually. -/
def parseHexAddr (s : List Char) (isIPv6 : Bool) : Option (List ℕ × ℕ) := do
  let (hexIP, hexPort) ← splitColon s
  let portBytes ← hexDecode hexPort
  match portBytes with
  | [p0, p1] =>
      let port := p0 * 256 + p1
      let ipBytes ← hexDecode hexIP
      if isIPv6 then
        match ipBytes with
        | [a0, a1, a2, a3, b0, b1, b2, b3, c0, c1, c2, c3, d0, d1, d2, d3] =>
            some ([a3, a2, a1, a0, b3, b2, b1, b0, c3, c2, c1, c0, d3, d2, d1, d0], port)
        | _ => none
      else
        match ipBytes with
        | [a, b, c, d] => some ([d, c, b, a], port)
        | _ => none
  | _ => none

/-- `net.IP.IsLoopback`: 127.0.0.0/8 (also in IPv4-mapped form) or `::1`. -/
def isLoopback (ip : List ℕ) : Bool :=
  match ip with
  | [a, _, _, _] => a = 127
  | [0, 0, 0, 0, 0, 0, 0, 0, 0, 0, 255, 255, a, _, _, _] => a = 127
  | [0, 0, 0, 0, 0, 0, 0, 0, 0, 0, 0, 0, 0, 0, 0, 1] => true
  | _ => false

/-- `net.IP.String` identifies an IPv4-mapped IPv6 address with the plain
4-byte form; the unique-IP set is keyed by that string. -/
def ipKey (ip : List ℕ) : List ℕ :=
  match ip with
  | [0, 0, 0, 0, 0, 0, 0, 0, 0, 0, 255, 255, a, b, c, d] => [a, b, c, d]
  | _ => ip

/-- A parsed row of `/proc/<pid>/net/tcp{,6}` (`tcpEntry` in the source). -/
structure tcpEntry where
  remoteIP   : List ℕ
  remotePort : ℕ
  state      : String
  deriving Repr, DecidableEq

/-- The `tcpStates` table (src/system.go lines 244-256). -/
def tcpStates : List (String × String) :=
  [("01", "established"), ("02", "syn_sent"), ("03", "syn_recv"), ("04", "fin_wait1"),
   ("05", "fin_wait2"), ("06", "time_wait"), ("07", "close"), ("08", "close_wait"),
   ("09", "last_ack"), ("0A", "listen"), ("0B", "closing")]

/-- The map read `tcpStates[code]` with its ok flag. -/
def tcpStateName (code : String) : Option String :=
  tcpStates.foldr (fun p acc => if p.1 = code then some p.2 else acc) none

/-- `ConnectionStats` (src/types.go). -/
structure ConnectionStats where
  Total     : ℤ
  UniqueIPs : ℤ
  States    : List (String × ℤ)
  deriving Repr, DecidableEq

/-- `CountryStats` (src/types.go). -/
structure CountryStats where
  Country     : String
  Connections : ℤ
  deriving Repr, DecidableEq

/-! ### GeoIP Resolver (src/geoip.go) -/

/-- `GeoIPResolver`: the database is a partial map from IP to ISO code
(`none` models a lookup error, `some ""` a record without a country code).
The internal memoisation cache is semantically transparent and dropped. -/
structure GeoIPResolver where
  db : List ℕ → Option String

/-- `GeoIPResolver.Lookup` (src/geoip.go lines 37-57) on a possibly-nil
receiver: empty string when no resolver is loaded, the sentinel `XX` when the
lookup errors or yields an empty ISO code, the ISO code otherwise. -/
def GeoIPResolver.Lookup (g : Option GeoIPResolver) (ip : List ℕ) : String :=
  match g with
  | none => ""
  | some r =>
      match r.db ip with
      | none => "XX"
      | some code => if code = "" then "XX" else code

/-! ### collectContainerConnections (src/system.go lines 261-317) -/

/-- The loop state of `collectContainerConnections`: running total, per-state
buckets, the set of unique remote IP strings, and per-country counts. -/
structure ConnState where
  total         : ℤ
  states        : List (String × ℤ)
  uniqueIPs     : List (List ℕ)
  countryCounts : List (String × ℤ)
  deriving Repr, DecidableEq

/-- The per-row body of the `collectContainerConnections` loop: skip
listening sockets (remote port 0) and loopback remotes; count the row in
Total; bump the state bucket only for recognised codes; record the remote IP;
and resolve established rows to a country when a resolver is loaded. -/
def connFoldStep (geo : Option GeoIPResolver) (st : ConnState) (e : tcpEntry) : ConnState :=
  if e.remotePort = 0 then st
  else if isLoopback e.remoteIP then st
  else
    { total := st.total + 1,
      states :=
        match tcpStateName e.state with
        | some name => mapIncr st.states name 1
        | none => st.states,
      uniqueIPs :=
        if st.uniqueIPs.contains (ipKey e.remoteIP) then st.uniqueIPs
        else ipKey e.remoteIP :: st.uniqueIPs,
      countryCounts :=
        if e.state = "01" ∧ geo.isSome then
          let country := GeoIPResolver.Lookup geo e.remoteIP
          if country ≠ "" then mapIncr st.countryCounts country 1 else st.countryCounts
        else st.countryCounts }

/-- The filter of the loop: rows that make it past the port-0 and loopback
skips and are therefore counted in Total. -/
def countedRow (e : tcpEntry) : Bool :=
  !(e.remotePort == 0) && !(isLoopback e.remoteIP)

/-- Descending order on connection counts, as used by the `sort.Slice` calls. -/
def connDescLe (a b : CountryStats) : Bool :=
  b.Connections ≤ a.Connections

/-- `collectContainerConnections`: fold the (already parsed and concatenated
tcp/tcp6) rows, then package the stats and the country list sorted in
descending order of connection count. -/
def collectContainerConnections (entries : List tcpEntry) (geo : Option GeoIPResolver) :
    ConnectionStats × List CountryStats :=
  let st := entries.foldl (connFoldStep geo) ⟨0, [], [], []⟩
  ({ Total := st.total, UniqueIPs := (st.uniqueIPs.length : ℤ), States := st.states },
   (st.countryCounts.map (fun p => CountryStats.mk p.1 p.2)).mergeSort connDescLe)

/-! ### Merge (src/system.go lines 422-463) -/

/-- The inner loop of `mergeConnectionStats`: `merged.States[state] += count`
over all entries of one source map. -/
def mergeStates (acc src : List (String × ℤ)) : List (String × ℤ) :=
  src.foldl (fun m p => mapIncr m p.1 p.2) acc

/-- The loop body of `mergeConnectionStats`: nil sources are skipped;
totals, unique-IP counts and state buckets are summed. -/
def mergeConnStep (merged : ConnectionStats) (s : Option ConnectionStats) : ConnectionStats :=
  match s with
  | none => merged
  | some s =>
      { Total := merged.Total + s.Total,
        UniqueIPs := merged.UniqueIPs + s.UniqueIPs,
        States := mergeStates merged.States s.States }

/-- `mergeConnectionStats` (src/system.go lines 422-443). -/
def mergeConnectionStats (all : List (Option ConnectionStats)) : ConnectionStats :=
  all.foldl mergeConnStep { Total := 0, UniqueIPs := 0, States := [] }

/-- The statement `counts[cs.Country] += cs.Connections`. -/
def countryIncr (m : List (String × ℤ)) (cs : CountryStats) : List (String × ℤ) :=
  mapIncr m cs.Country cs.Connections

/-- `mergeCountryStats` (src/system.go lines 446-463): sum connection counts
per country code over all source lists, then sort descending by count. -/
def mergeCountryStats (all : List (List CountryStats)) : List CountryStats :=
  let counts := all.foldl (fun m list => list.foldl countryIncr m) []
  (counts.map (fun p => CountryStats.mk p.1 p.2)).mergeSort connDescLe

/-- The Total field of an optional source (0 for nil). -/
def optTotal : Option ConnectionStats → ℤ
  | none => 0
  | some s => s.Total

/-- The UniqueIPs field of an optional source (0 for nil). -/
def optUniqueIPs : Option ConnectionStats → ℤ
  | none => 0
  | some s => s.UniqueIPs

/-- The count an optional source holds in state bucket `k` (0 for nil). -/
def optStateCount (k : String) : Option ConnectionStats → ℤ
  | none => 0
  | some s => keyTotal s.States k

/-- Total (with multiplicity) of the connection counts recorded for country
`k` in a country-stats list. -/
def countryTotal (l : List CountryStats) (k : String) : ℤ :=
  ((l.filter (fun cs => cs.Country = k)).map (fun cs => cs.Connections)).sum

/-- Sum of all connection counts of a country-stats list. -/
def countryConnSum (l : List CountryStats) : ℤ :=
  (l.map (fun cs => cs.Connections)).sum

/-! ### Parts of the snapshot assembly that are not in the sources -/

/-- Modelled from the spec: the collection orchestrator that assembles the
final snapshot (the caller of `mergeConnectionStats` filling
`StatusResponse.Connections`) is not among the sources; per §8, "an all-zero
merge result is treated as no connection data (nulled), not reported as
zero", so the merged stats are dropped (the `omitempty` pointer stays nil)
exactly when total, unique-IP count and every state bucket are zero. -/
def finalizeConnectionStats (all : List (Option ConnectionStats)) : Option ConnectionStats :=
  let merged := mergeConnectionStats all
  if merged.Total = 0 ∧ merged.UniqueIPs = 0 ∧ valsSum merged.States = 0 then none
  else some merged

/-- Modelled from the spec: the country scaling estimator of §4.5 is not
among the sources (only `readTrackerSnapshot`, which produces the raw
per-country unique-IP counts, is); per the spec each reported count is
`round(raw_country_ip_count * connected_clients / total_snapshot_ip_count)`,
where the snapshot total is the total of the raw counts. -/
def scaleCountryCounts (raw : List (String × ℕ)) (connectedClients : ℕ) : List (String × ℤ) :=
  let total := (raw.map (fun p => p.2)).sum
  if total = 0 then []
  else raw.map (fun p => (p.1, goRound ((p.2 : ℚ) * connectedClients / total)))

/-! ## Theorems -/

theorem wrapSub_eq_sub {a b : ℕ} (hle : b ≤ a) (ha : a < 2 ^ 64) : wrapSub a b = a - b := by
  unfold wrapSub
  omega

theorem toInt64_eq_self {n : ℕ} (h : n < 2 ^ 63) : toInt64 n = n := by
  unfold toInt64
  split <;> omega

/-- C1: a call to `SessionTracker.Update` whose cumulative upload or download
is below the recorded baseline resets peak, sample count and connection sum
to zero before applying the new sample, and keeps the supplied cumulative
values as the new baseline; on the upload sequence [100, 200, 50] the reset
occurs exactly at the third sample and the baseline afterwards is 50. -/
theorem c1_update_resets_on_counter_regression :
    (∀ (s : SessionTracker) (tc : ℤ) (up dn ut now : ℚ),
      (up < s.lastUpload ∨ dn < s.lastDownload) →
      ((s.Update tc up dn ut now).peakConns = max tc 0 ∧
       (s.Update tc up dn ut now).sampleCount = 1 ∧
       (s.Update tc up dn ut now).connSum = tc ∧
       (s.Update tc up dn ut now).lastUpload = up ∧
       (s.Update tc up dn ut now).lastDownload = dn)) ∧
    (((SessionTracker.new 0).Update 10 100 100 0 0).sampleCount = 1 ∧
     (((SessionTracker.new 0).Update 10 100 100 0 0).Update 20 200 200 0 0).sampleCount = 2 ∧
     ((((SessionTracker.new 0).Update 10 100 100 0 0).Update 20 200 200 0 0).Update
        5 50 50 0 0).sampleCount = 1 ∧
     ((((SessionTracker.new 0).Update 10 100 100 0 0).Update 20 200 200 0 0).Update
        5 50 50 0 0).connSum = 5 ∧
     ((((SessionTracker.new 0).Update 10 100 100 0 0).Update 20 200 200 0 0).Update
        5 50 50 0 0).peakConns = 5 ∧
     ((((SessionTracker.new 0).Update 10 100 100 0 0).Update 20 200 200 0 0).Update
        5 50 50 0 0).lastUpload = 50 ∧
     ((((SessionTracker.new 0).Update 10 100 100 0 0).Update 20 200 200 0 0).Update
        5 50 50 0 0).lastDownload = 50) := by
  constructor
  · intro s tc up dn ut now hreg
    simp only [SessionTracker.Update, if_pos hreg]
    split_ifs <;> simp_all <;> omega
  · refine ⟨by decide, by decide, by decide, by decide, by decide, by decide, by decide⟩

/-- C1 witness: a concrete counter regression (upload 40 below baseline 100)
resets the sample count to 1 and keeps 40 as the new baseline. -/
theorem c1_update_resets_on_counter_regression_witness :
    ((40 : ℚ) < ((SessionTracker.new 0).Update 10 100 100 0 0).lastUpload ∧
     (((SessionTracker.new 0).Update 10 100 100 0 0).Update 3 40 40 0 0).sampleCount = 1 ∧
     (((SessionTracker.new 0).Update 10 100 100 0 0).Update 3 40 40 0 0).lastUpload = 40) := by
  have h := c1_update_resets_on_counter_regression.1
    ((SessionTracker.new 0).Update 10 100 100 0 0) 3 40 40 0 0 (Or.inl (by decide))
  exact ⟨by decide, h.2.1, h.2.2.2.1⟩

/-- C6: the recorded peak is non-decreasing across `Update` calls without a
counter regression, and `UpdateFromCM` replaces the peak exactly with the
maximum of the current and external peaks, replaces start time only when the
external start time is non-zero, and leaves sample count, connection sum and
the traffic baselines untouched. -/
theorem c6_peak_monotone_and_cm_override :
    (∀ (s : SessionTracker) (tc : ℤ) (up dn ut now : ℚ),
      s.lastUpload ≤ up → s.lastDownload ≤ dn →
      s.peakConns ≤ (s.Update tc up dn ut now).peakConns) ∧
    (∀ (s : SessionTracker) (cmPeak : ℤ) (cmStart : ℚ),
      (s.UpdateFromCM cmPeak cmStart).peakConns = max s.peakConns cmPeak ∧
      s.peakConns ≤ (s.UpdateFromCM cmPeak cmStart).peakConns ∧
      (cmStart = 0 → (s.UpdateFromCM cmPeak cmStart).startTime = s.startTime) ∧
      (cmStart ≠ 0 → (s.UpdateFromCM cmPeak cmStart).startTime = cmStart) ∧
      (s.UpdateFromCM cmPeak cmStart).sampleCount = s.sampleCount ∧
      (s.UpdateFromCM cmPeak cmStart).connSum = s.connSum ∧
      (s.UpdateFromCM cmPeak cmStart).lastUpload = s.lastUpload ∧
      (s.UpdateFromCM cmPeak cmStart).lastDownload = s.lastDownload) := by
  constructor
  · intro s tc up dn ut now hup hdn
    have hreg : ¬(up < s.lastUpload ∨ dn < s.lastDownload) := by
      push_neg; exact ⟨hup, hdn⟩
    simp only [SessionTracker.Update, if_neg hreg]
    split_ifs <;> simp_all <;> omega
  · intro s cmPeak cmStart
    simp only [SessionTracker.UpdateFromCM]
    rcases lt_or_le s.peakConns cmPeak with hp | hp <;>
    rcases eq_or_ne cmStart 0 with hz | hz <;>
    simp [hp, not_lt.mpr hp, hz] <;>
    omega

/-- C6 witness: concrete instantiation — no regression keeps the peak at 10,
and a CM override with external peak 42 and non-zero start time 7. -/
theorem c6_peak_monotone_and_cm_override_witness :
    (((SessionTracker.new 0).Update 10 100 100 0 0).peakConns ≤
      (((SessionTracker.new 0).Update 10 100 100 0 0).Update 4 150 150 0 0).peakConns ∧
     (((SessionTracker.new 0).Update 10 100 100 0 0).UpdateFromCM 42 7).peakConns = 42 ∧
     (((SessionTracker.new 0).Update 10 100 100 0 0).UpdateFromCM 42 7).startTime = 7) := by
  have h1 := c6_peak_monotone_and_cm_override.1
    ((SessionTracker.new 0).Update 10 100 100 0 0) 4 150 150 0 0 (by decide) (by decide)
  have h2 := c6_peak_monotone_and_cm_override.2
    ((SessionTracker.new 0).Update 10 100 100 0 0) 42 7
  refine ⟨h1, ?_, h2.2.2.2.1 (by decide)⟩
  · have := h2.1
    simpa [show ((SessionTracker.new 0).Update 10 100 100 0 0).peakConns = 10 from by decide]
      using this

/-- C2: with a previous CPU sample and a strictly positive total-tick delta,
the reported CPU percent is `(1 - idleDelta/totalDelta) * 100` rounded to two
decimals; the first-ever sample reports zero; samples (idle=100,total=200)
then (idle=150,total=300) yield 50.00. -/
theorem c2_cpu_percent_delta :
    (∀ p c : cpuSample, p.idle ≤ c.idle → p.total < c.total →
      c.idle < 2 ^ 64 → c.total < 2 ^ 64 →
      (readCPU (some p) c).2 =
        round2 ((1 - ((c.idle : ℚ) - p.idle) / ((c.total : ℚ) - p.total)) * 100)) ∧
    (∀ c : cpuSample, (readCPU none c).2 = 0) ∧
    (readCPU (some ⟨100, 200⟩) ⟨150, 300⟩).2 = 50 := by
  refine ⟨?_, fun c => rfl, ?_⟩
  case refine_2 =>
    norm_num [readCPU, wrapSub, round2, goRound]
  intro p c hidle htotal hib htb
  have h1 : wrapSub c.total p.total = c.total - p.total :=
    wrapSub_eq_sub (le_of_lt htotal) htb
  have h2 : wrapSub c.idle p.idle = c.idle - p.idle :=
    wrapSub_eq_sub hidle hib
  have hpos : (0 : ℚ) < ((c.total - p.total : ℕ) : ℚ) := by
    have : 0 < c.total - p.total := by omega
    exact_mod_cast this
  simp only [readCPU, h1, h2, if_pos hpos]
  congr 1
  push_cast [Nat.cast_sub (le_of_lt htotal), Nat.cast_sub hidle]
  ring_nf

/-- C2 witness: the theorem applied at the concrete sample pair
(idle=100,total=200) then (idle=150,total=300). -/
theorem c2_cpu_percent_delta_witness :
    (100 : ℕ) ≤ 150 ∧ (200 : ℕ) < 300 ∧
    (readCPU (some ⟨100, 200⟩) ⟨150, 300⟩).2 =
      round2 ((1 - ((150 : ℚ) - 100) / ((300 : ℚ) - 200)) * 100) := by
  refine ⟨by decide, by decide, ?_⟩
  have h := c2_cpu_percent_delta.1 ⟨100, 200⟩ ⟨150, 300⟩
    (by decide) (by decide) (by decide) (by decide)
  simpa using h

/-- C9: with a previous network sample and positive elapsed time, throughput
is `deltaBytes * 8 / (elapsed * 1e6)` Mbps rounded to two decimals over the
summed non-loopback interface counters, error and drop figures are plain
counter differences not divided by time, a `lo` row contributes nothing, and
a delta of 1,000,000 bytes over 8 seconds yields 1.00 Mbps. -/
theorem c9_network_rates :
    (∀ (p : netSample) (rows : List netIfaceRow) (t now : ℚ),
      t < now →
      p.rxBytes ≤ (netAccum rows).rxBytes → (netAccum rows).rxBytes < 2 ^ 64 →
      p.txBytes ≤ (netAccum rows).txBytes → (netAccum rows).txBytes < 2 ^ 64 →
      p.rxErrors ≤ (netAccum rows).rxErrors → (netAccum rows).rxErrors < 2 ^ 62 →
      p.txErrors ≤ (netAccum rows).txErrors → (netAccum rows).txErrors < 2 ^ 62 →
      p.rxDropped ≤ (netAccum rows).rxDropped → (netAccum rows).rxDropped < 2 ^ 62 →
      p.txDropped ≤ (netAccum rows).txDropped → (netAccum rows).txDropped < 2 ^ 62 →
      (readNetwork (some (p, t)) rows now).2 =
        { NetInMbps := round2 ((((netAccum rows).rxBytes : ℚ) - p.rxBytes) * 8 /
              ((now - t) * 1000000)),
          NetOutMbps := round2 ((((netAccum rows).txBytes : ℚ) - p.txBytes) * 8 /
              ((now - t) * 1000000)),
          NetErrors := (((netAccum rows).rxErrors : ℤ) - p.rxErrors) +
              (((netAccum rows).txErrors : ℤ) - p.txErrors),
          NetDrops := (((netAccum rows).rxDropped : ℤ) - p.rxDropped) +
              (((netAccum rows).txDropped : ℤ) - p.txDropped) }) ∧
    (∀ (r : netIfaceRow) (rows : List netIfaceRow), r.name = "lo" →
      netAccum (r :: rows) = netAccum rows) ∧
    ((readNetwork (some (⟨0, 0, 0, 0, 0, 0⟩, 0))
        [⟨"eth0", 1000000, 0, 0, 1000000, 0, 0⟩] 8).2.NetInMbps = 1) := by
  refine ⟨?_, ?_, ?_⟩
  case refine_3 =>
    have hacc : netAccum [⟨"eth0", 1000000, 0, 0, 1000000, 0, 0⟩] =
        ⟨1000000, 1000000, 0, 0, 0, 0⟩ := by decide
    norm_num [readNetwork, hacc, wrapSub, toInt64, round2, goRound]
  · intro p rows t now ht hrb hrb64 htb htb64 hre hre64 hte hte64 hrd hrd64 htd htd64
    have helapsed : (0 : ℚ) < now - t := by linarith
    simp only [readNetwork, if_pos helapsed]
    rw [wrapSub_eq_sub hrb hrb64, wrapSub_eq_sub htb htb64,
        wrapSub_eq_sub hre (by omega), wrapSub_eq_sub hte (by omega),
        wrapSub_eq_sub hrd (by omega), wrapSub_eq_sub htd (by omega)]
    have hmode : ((netAccum rows).rxErrors - p.rxErrors +
        ((netAccum rows).txErrors - p.txErrors)) % 2 ^ 64 =
        (netAccum rows).rxErrors - p.rxErrors + ((netAccum rows).txErrors - p.txErrors) := by
      omega
    have hmodd : ((netAccum rows).rxDropped - p.rxDropped +
        ((netAccum rows).txDropped - p.txDropped)) % 2 ^ 64 =
        (netAccum rows).rxDropped - p.rxDropped + ((netAccum rows).txDropped - p.txDropped) := by
      omega
    rw [hmode, hmodd, toInt64_eq_self (by omega), toInt64_eq_self (by omega)]
    congr 1 <;>
      push_cast [Nat.cast_sub hrb, Nat.cast_sub htb, Nat.cast_sub hre, Nat.cast_sub hte,
        Nat.cast_sub hrd, Nat.cast_sub htd] <;>
      ring_nf
  · intro r rows h
    simp [netAccum, h]

/-- C9 witness: the theorem applied at the concrete pair — previous all-zero
sample at time 0, one `eth0` row with 1,000,000 rx and tx bytes at time 8. -/
theorem c9_network_rates_witness :
    (0 : ℚ) < 8 ∧
    (readNetwork (some (⟨0, 0, 0, 0, 0, 0⟩, 0))
        [⟨"eth0", 1000000, 0, 0, 1000000, 0, 0⟩] 8).2 =
      { NetInMbps := round2 (((1000000 : ℚ) - 0) * 8 / (((8 : ℚ) - 0) * 1000000)),
        NetOutMbps := round2 (((1000000 : ℚ) - 0) * 8 / (((8 : ℚ) - 0) * 1000000)),
        NetErrors := 0, NetDrops := 0 } := by
  refine ⟨by norm_num, ?_⟩
  have h := c9_network_rates.1 ⟨0, 0, 0, 0, 0, 0⟩
    [⟨"eth0", 1000000, 0, 0, 1000000, 0, 0⟩] 0 8
    (by norm_num) (by decide) (by decide) (by decide) (by decide) (by decide) (by decide)
    (by decide) (by decide) (by decide) (by decide) (by decide) (by decide)
  simpa using h

theorem hexDigit_colon : hexDigit ':' = none := by decide

theorem hexDecode_not_colon : ∀ {l : List Char} {bs : List ℕ},
    hexDecode l = some bs → ':' ∉ l
  | [], _, _ => by simp
  | [c], _, h => by simp [hexDecode] at h
  | hi :: lo :: rest, bs, h => by
    simp only [hexDecode, Option.bind_eq_bind, Option.bind_eq_some] at h
    obtain ⟨x, hx, y, hy, z, hz, -⟩ := h
    intro hmem
    simp only [List.mem_cons] at hmem
    rcases hmem with rfl | rfl | hmem
    · rw [hexDigit_colon] at hx; exact Option.noConfusion hx
    · rw [hexDigit_colon] at hy; exact Option.noConfusion hy
    · exact hexDecode_not_colon hz hmem

theorem splitColon_append {a : List Char} (b : List Char) (ha : ':' ∉ a) :
    splitColon (a ++ ':' :: b) = some (a, b) := by
  induction a with
  | nil => simp [splitColon]
  | cons c rest ih =>
      have hc : ¬(c = ':') := fun h => ha (by simp [h])
      have hrest : ':' ∉ rest := fun h => ha (by simp [h])
      simp [splitColon, hc, ih hrest]

/-- C3: `parseHexAddr` decodes the port as a big-endian 16-bit integer,
reverses the 4 bytes of a little-endian IPv4 word, and reverses the 4 bytes
of each of the four 32-bit words of an IPv6 address individually; the IPv4
hex address `0100007F` decodes to 127.0.0.1. -/
theorem c3_parseHexAddr_decoding :
    (∀ (ipHex portHex : List Char) (a b c d p0 p1 : ℕ),
      hexDecode ipHex = some [a, b, c, d] →
      hexDecode portHex = some [p0, p1] →
      parseHexAddr (ipHex ++ ':' :: portHex) false =
        some ([d, c, b, a], p0 * 256 + p1)) ∧
    (∀ (ipHex portHex : List Char)
       (a0 a1 a2 a3 b0 b1 b2 b3 c0 c1 c2 c3 d0 d1 d2 d3 p0 p1 : ℕ),
      hexDecode ipHex =
        some [a0, a1, a2, a3, b0, b1, b2, b3, c0, c1, c2, c3, d0, d1, d2, d3] →
      hexDecode portHex = some [p0, p1] →
      parseHexAddr (ipHex ++ ':' :: portHex) true =
        some ([a3, a2, a1, a0, b3, b2, b1, b0, c3, c2, c1, c0, d3, d2, d1, d0],
          p0 * 256 + p1)) ∧
    parseHexAddr ("0100007F:0050".data) false = some ([127, 0, 0, 1], 80) := by
  refine ⟨?_, ?_, by decide⟩
  · intro ipHex portHex a b c d p0 p1 hip hport
    simp [parseHexAddr, splitColon_append portHex (hexDecode_not_colon hip), hip, hport]
  · intro ipHex portHex a0 a1 a2 a3 b0 b1 b2 b3 c0 c1 c2 c3 d0 d1 d2 d3 p0 p1 hip hport
    simp [parseHexAddr, splitColon_append portHex (hexDecode_not_colon hip), hip, hport]

/-- C3 witness: the theorem applied to the concrete kernel-table fixtures
`0A000001:01BB` (IPv4) and the IPv4-mapped IPv6 form `...FFFF0A000001:01BB`. -/
theorem c3_parseHexAddr_decoding_witness :
    hexDecode ("0A000001".data) = some [10, 0, 0, 1] ∧
    hexDecode ("01BB".data) = some [1, 187] ∧
    hexDecode ("0000000000000000FFFF00000A000001".data) =
      some [0, 0, 0, 0, 0, 0, 0, 0, 255, 255, 0, 0, 10, 0, 0, 1] ∧
    parseHexAddr ("0A000001:01BB".data) false = some ([1, 0, 0, 10], 1 * 256 + 187) ∧
    parseHexAddr ("0000000000000000FFFF00000A000001:01BB".data) true =
      some ([0, 0, 0, 0, 0, 0, 0, 0, 0, 0, 255, 255, 1, 0, 0, 10], 1 * 256 + 187) := by
  refine ⟨by decide, by decide, by decide, ?_, ?_⟩
  · have h := c3_parseHexAddr_decoding.1 ("0A000001".data) ("01BB".data)
      10 0 0 1 1 187 (by decide) (by decide)
    exact h
  · have h := c3_parseHexAddr_decoding.2.1 ("0000000000000000FFFF00000A000001".data)
      ("01BB".data) 0 0 0 0 0 0 0 0 255 255 0 0 10 0 0 1 1 187 (by decide) (by decide)
    exact h

theorem mapGet_mapIncr (m : List (String × ℤ)) (k : String) (v : ℤ) (k' : String) :
    mapGet (mapIncr m k v) k' = mapGet m k' + if k = k' then v else 0 := by
  induction m with
  | nil =>
      simp only [mapIncr, mapGet]
      split_ifs <;> simp_all [mapGet]
  | cons p rest ih =>
      obtain ⟨k0, v0⟩ := p
      simp only [mapIncr]
      split_ifs with h1 <;> simp only [mapGet] <;> split_ifs <;> simp_all <;> omega

theorem keyTotal_mapIncr (m : List (String × ℤ)) (k : String) (v : ℤ) (k' : String) :
    keyTotal (mapIncr m k v) k' = keyTotal m k' + if k = k' then v else 0 := by
  induction m with
  | nil =>
      simp only [mapIncr, keyTotal]
      split_ifs <;> simp_all [List.filter]
  | cons p rest ih =>
      obtain ⟨k0, v0⟩ := p
      simp only [mapIncr]
      split_ifs with h1 <;>
        simp only [keyTotal, List.filter_cons] <;>
        split_ifs <;> simp_all [keyTotal] <;> omega

theorem valsSum_mapIncr (m : List (String × ℤ)) (k : String) (v : ℤ) :
    valsSum (mapIncr m k v) = valsSum m + v := by
  induction m with
  | nil => simp [mapIncr, valsSum]
  | cons p rest ih =>
      obtain ⟨k0, v0⟩ := p
      simp only [mapIncr]
      split_ifs with h1 <;> simp_all [valsSum] <;> omega

theorem mapGet_mergeStates (src : List (String × ℤ)) :
    ∀ (acc : List (String × ℤ)) (k : String),
      mapGet (mergeStates acc src) k = mapGet acc k + keyTotal src k := by
  induction src with
  | nil => intro acc k; simp [mergeStates, keyTotal]
  | cons p rest ih =>
      intro acc k
      have hstep : mergeStates acc (p :: rest) = mergeStates (mapIncr acc p.1 p.2) rest := rfl
      rw [hstep, ih, mapGet_mapIncr]
      simp only [keyTotal, List.filter_cons]
      split_ifs with h <;> simp_all [keyTotal] <;> omega

theorem valsSum_mergeStates (src : List (String × ℤ)) :
    ∀ acc : List (String × ℤ), valsSum (mergeStates acc src) = valsSum acc + valsSum src := by
  induction src with
  | nil => intro acc; simp [mergeStates, valsSum]
  | cons p rest ih =>
      intro acc
      have hstep : mergeStates acc (p :: rest) = mergeStates (mapIncr acc p.1 p.2) rest := rfl
      rw [hstep, ih, valsSum_mapIncr]
      simp [valsSum]
      omega

theorem mergeConn_foldl (all : List (Option ConnectionStats)) :
    ∀ acc : ConnectionStats,
      (all.foldl mergeConnStep acc).Total = acc.Total + (all.map optTotal).sum ∧
      (all.foldl mergeConnStep acc).UniqueIPs = acc.UniqueIPs + (all.map optUniqueIPs).sum ∧
      ∀ k, mapGet (all.foldl mergeConnStep acc).States k =
        mapGet acc.States k + (all.map (optStateCount k)).sum := by
  induction all with
  | nil => intro acc; simp
  | cons s rest ih =>
      intro acc
      obtain ⟨h1, h2, h3⟩ := ih (mergeConnStep acc s)
      refine ⟨?_, ?_, ?_⟩
      · rw [List.foldl_cons, h1]
        cases s <;> simp [mergeConnStep, optTotal] <;> omega
      · rw [List.foldl_cons, h2]
        cases s <;> simp [mergeConnStep, optUniqueIPs] <;> omega
      · intro k
        rw [List.foldl_cons, h3 k]
        cases s <;>
          simp [mergeConnStep, optStateCount, mapGet_mergeStates] <;> omega

theorem countryTotal_perm {l l' : List CountryStats} (h : l.Perm l') (k : String) :
    countryTotal l k = countryTotal l' k := by
  unfold countryTotal
  exact List.Perm.sum_eq (List.Perm.map _ (List.Perm.filter _ h))

theorem countryTotal_map_mk (m : List (String × ℤ)) (k : String) :
    countryTotal (m.map (fun p => CountryStats.mk p.1 p.2)) k = keyTotal m k := by
  induction m with
  | nil => simp [countryTotal, keyTotal]
  | cons p rest ih =>
      simp only [List.map_cons, countryTotal, keyTotal, List.filter_cons] at *
      split_ifs <;> simp_all

theorem keyTotal_countryFold (list : List CountryStats) :
    ∀ (m : List (String × ℤ)) (k : String),
      keyTotal (list.foldl countryIncr m) k = keyTotal m k + countryTotal list k := by
  induction list with
  | nil => intro m k; simp [countryTotal]
  | cons cs rest ih =>
      intro m k
      rw [List.foldl_cons]
      show keyTotal (rest.foldl countryIncr (mapIncr m cs.Country cs.Connections)) k = _
      rw [ih, keyTotal_mapIncr]
      simp only [countryTotal, List.filter_cons]
      split_ifs <;> simp_all [countryTotal] <;> omega

theorem keyTotal_countryFoldAll (all : List (List CountryStats)) :
    ∀ (m : List (String × ℤ)) (k : String),
      keyTotal (all.foldl (fun m list => list.foldl countryIncr m) m) k =
        keyTotal m k + (all.map (fun l => countryTotal l k)).sum := by
  induction all with
  | nil => intro m k; simp
  | cons l rest ih =>
      intro m k
      rw [List.foldl_cons, ih, keyTotal_countryFold]
      simp
      omega

theorem pairwise_mergeSort_desc (l : List CountryStats) :
    (l.mergeSort connDescLe).Pairwise (fun a b => b.Connections ≤ a.Connections) := by
  have h := @List.sorted_mergeSort CountryStats connDescLe
    (fun a b c hab hbc => by simp only [connDescLe, decide_eq_true_eq] at *; omega)
    (fun a b => by simp only [connDescLe, Bool.or_eq_true, decide_eq_true_eq]; omega) l
  exact h.imp (fun hab => by simpa [connDescLe] using hab)

/-- C4: merged connection stats sum Total, unique-IP counts and each state
bucket arithmetically over all non-nil inputs (unique IPs without
deduplication); merged country lists sum connection counts per country code
and come out sorted in descending order of count; merging
[{Total:5,States:{established:5}}, {Total:0}] yields exactly
{Total:5,States:{established:5}}. -/
theorem c4_merge_sums_and_sorts :
    (∀ all : List (Option ConnectionStats),
      (mergeConnectionStats all).Total = (all.map optTotal).sum ∧
      (mergeConnectionStats all).UniqueIPs = (all.map optUniqueIPs).sum ∧
      ∀ k, mapGet (mergeConnectionStats all).States k = (all.map (optStateCount k)).sum) ∧
    (∀ (all : List (List CountryStats)) (k : String),
      countryTotal (mergeCountryStats all) k = (all.map (fun l => countryTotal l k)).sum) ∧
    (∀ all : List (List CountryStats),
      (mergeCountryStats all).Pairwise (fun a b => b.Connections ≤ a.Connections)) ∧
    mergeConnectionStats [some ⟨5, 0, [("established", 5)]⟩, some ⟨0, 0, []⟩] =
      ⟨5, 0, [("established", 5)]⟩ := by
  refine ⟨?_, ?_, ?_, by decide⟩
  · intro all
    obtain ⟨h1, h2, h3⟩ := mergeConn_foldl all ⟨0, 0, []⟩
    exact ⟨by simpa using h1, by simpa using h2, fun k => by simpa [mapGet] using h3 k⟩
  · intro all k
    unfold mergeCountryStats
    rw [countryTotal_perm (List.mergeSort_perm _ _) k, countryTotal_map_mk,
        keyTotal_countryFoldAll]
    simp [keyTotal]
  · intro all
    exact pairwise_mergeSort_desc _

theorem lookup_some_ne_empty (r : GeoIPResolver) (ip : List ℕ) :
    GeoIPResolver.Lookup (some r) ip ≠ "" := by
  show (match r.db ip with
        | none => "XX"
        | some code => if code = "" then "XX" else code) ≠ ""
  cases r.db ip with
  | none => decide
  | some code =>
      show (if code = "" then "XX" else code) ≠ ""
      split_ifs with h
      · decide
      · exact h

theorem connFold_counts (geo : Option GeoIPResolver) (entries : List tcpEntry) :
    ∀ st : ConnState,
      (entries.foldl (connFoldStep geo) st).total =
        st.total + ((entries.filter countedRow).length : ℤ) ∧
      valsSum (entries.foldl (connFoldStep geo) st).states =
        valsSum st.states +
          ((entries.filter
              (fun e => countedRow e && (tcpStateName e.state).isSome)).length : ℤ) := by
  induction entries with
  | nil => intro st; simp
  | cons e rest ih =>
      intro st
      obtain ⟨ih1, ih2⟩ := ih (connFoldStep geo st e)
      by_cases h1 : e.remotePort = 0
      · rw [List.foldl_cons] at *
        refine ⟨by rw [ih1]; simp [connFoldStep, countedRow, h1, List.filter_cons],
                by rw [ih2]; simp [connFoldStep, countedRow, h1, List.filter_cons]⟩
      · by_cases h2 : isLoopback e.remoteIP
        · rw [List.foldl_cons] at *
          refine ⟨by rw [ih1]; simp [connFoldStep, countedRow, h1, h2, List.filter_cons],
                  by rw [ih2]; simp [connFoldStep, countedRow, h1, h2, List.filter_cons]⟩
        · rw [List.foldl_cons] at *
          cases hname : tcpStateName e.state with
          | none =>
              refine ⟨?_, ?_⟩
              · rw [ih1]
                simp [connFoldStep, countedRow, h1, h2, List.filter_cons]
                omega
              · rw [ih2]
                simp [connFoldStep, countedRow, h1, h2, hname, List.filter_cons]
          | some name =>
              refine ⟨?_, ?_⟩
              · rw [ih1]
                simp [connFoldStep, countedRow, h1, h2, List.filter_cons]
                omega
              · rw [ih2]
                simp [connFoldStep, countedRow, h1, h2, hname, List.filter_cons,
                  valsSum_mapIncr]
                omega

theorem connFold_country_counts (r : GeoIPResolver) (entries : List tcpEntry) :
    ∀ st : ConnState,
      valsSum (entries.foldl (connFoldStep (some r)) st).countryCounts =
        valsSum st.countryCounts +
          ((entries.filter (fun e => countedRow e && (e.state == "01"))).length : ℤ) := by
  induction entries with
  | nil => intro st; simp
  | cons e rest ih =>
      intro st
      rw [List.foldl_cons, ih (connFoldStep (some r) st e)]
      by_cases h1 : e.remotePort = 0
      · simp [connFoldStep, countedRow, h1, List.filter_cons]
      · by_cases h2 : isLoopback e.remoteIP
        · simp [connFoldStep, countedRow, h1, h2, List.filter_cons]
        · by_cases h3 : e.state = "01"
          · have hne := lookup_some_ne_empty r e.remoteIP
            simp [connFoldStep, countedRow, h1, h2, h3, hne, List.filter_cons,
              valsSum_mapIncr]
            omega
          · simp [connFoldStep, countedRow, h1, h2, h3, List.filter_cons]

theorem countryConnSum_perm {l l' : List CountryStats} (h : l.Perm l') :
    countryConnSum l = countryConnSum l' :=
  List.Perm.sum_eq (List.Perm.map _ h)

theorem countryConnSum_map_mk (m : List (String × ℤ)) :
    countryConnSum (m.map (fun p => CountryStats.mk p.1 p.2)) = valsSum m := by
  induction m with
  | nil => simp [countryConnSum, valsSum]
  | cons p rest ih => simp_all [countryConnSum, valsSum]

theorem filter_split_len (entries : List tcpEntry) :
    (entries.filter (fun e => countedRow e && (tcpStateName e.state).isSome)).length +
      (entries.filter (fun e => countedRow e && (tcpStateName e.state).isNone)).length =
      (entries.filter countedRow).length := by
  induction entries with
  | nil => simp
  | cons e rest ih =>
      by_cases h1 : countedRow e <;>
        cases hname : tcpStateName e.state <;>
        simp [List.filter_cons, h1, hname] <;>
        omega

/-- C5 counterexample: a single counted row (remote port 443, non-loopback)
with the unrecognised state code `0C` gives Total = 1 while the per-state
buckets sum to 0, so the bucket counts do not sum to Total. -/
theorem c5_states_sum_to_total_counterexample :
    (collectContainerConnections [⟨[9, 9, 9, 9], 443, "0C"⟩] none).1.Total = 1 ∧
    valsSum (collectContainerConnections [⟨[9, 9, 9, 9], 443, "0C"⟩] none).1.States = 0 ∧
    (1 : ℤ) ≠ 0 := by
  exact ⟨by decide, by decide, by decide⟩

/-- C5 (amended): the per-state bucket counts sum to Total minus the number
of counted rows whose state code is unrecognised; hence the bucket sum is at
most Total, with equality exactly when every counted row carries a
recognised state code — they do not sum to Total in general, since
unrecognised codes are counted in Total but in no bucket. -/
theorem c5_states_sum_vs_total :
    ∀ (entries : List tcpEntry) (geo : Option GeoIPResolver),
      valsSum (collectContainerConnections entries geo).1.States +
          ((entries.filter
              (fun e => countedRow e && (tcpStateName e.state).isNone)).length : ℤ) =
        (collectContainerConnections entries geo).1.Total ∧
      valsSum (collectContainerConnections entries geo).1.States ≤
        (collectContainerConnections entries geo).1.Total ∧
      ((∀ e ∈ entries, countedRow e → (tcpStateName e.state).isSome) →
        valsSum (collectContainerConnections entries geo).1.States =
          (collectContainerConnections entries geo).1.Total) := by
  intro entries geo
  obtain ⟨h1, h2⟩ := connFold_counts geo entries ⟨0, [], [], []⟩
  have hsplit := filter_split_len entries
  have hTotal : (collectContainerConnections entries geo).1.Total =
      ((entries.filter countedRow).length : ℤ) := by
    simpa using h1
  have hStates : valsSum (collectContainerConnections entries geo).1.States =
      ((entries.filter
          (fun e => countedRow e && (tcpStateName e.state).isSome)).length : ℤ) := by
    simpa [valsSum] using h2
  refine ⟨by rw [hTotal, hStates]; omega, by rw [hTotal, hStates]; omega, ?_⟩
  intro hall
  have hnone : entries.filter
      (fun e => countedRow e && (tcpStateName e.state).isNone) = [] := by
    rw [List.filter_eq_nil_iff]
    intro e he
    by_cases hc : countedRow e
    · have := hall e he hc
      simp [hc, this, Option.isNone_iff_eq_none]
      exact Option.isSome_iff_ne_none.mp this
    · simp [hc]
  have hlen := congrArg List.length hnone
  simp only [List.length_nil] at hlen
  rw [hTotal, hStates]
  omega

/-- C5 witness: the amended theorem applied to a single established row —
every counted row recognised, so the bucket sum equals Total. -/
theorem c5_states_sum_vs_total_witness :
    valsSum (collectContainerConnections [⟨[9, 9, 9, 9], 443, "01"⟩] none).1.States =
      (collectContainerConnections [⟨[9, 9, 9, 9], 443, "01"⟩] none).1.Total :=
  (c5_states_sum_vs_total [⟨[9, 9, 9, 9], 443, "01"⟩] none).2.2 (by decide)

/-- C7: when the merge of the per-target connection stats is all-zero (zero
Total, zero unique IPs, all-zero state buckets) the result is reported as
null rather than as an explicit zero object; otherwise the merged object is
reported. -/
theorem c7_all_zero_merge_nulled :
    (∀ all : List (Option ConnectionStats),
      (mergeConnectionStats all).Total = 0 ∧ (mergeConnectionStats all).UniqueIPs = 0 ∧
        valsSum (mergeConnectionStats all).States = 0 →
      finalizeConnectionStats all = none) ∧
    (∀ all : List (Option ConnectionStats),
      ¬((mergeConnectionStats all).Total = 0 ∧ (mergeConnectionStats all).UniqueIPs = 0 ∧
          valsSum (mergeConnectionStats all).States = 0) →
      finalizeConnectionStats all = some (mergeConnectionStats all)) ∧
    finalizeConnectionStats [some ⟨0, 0, [("established", 0)]⟩, none] = none ∧
    finalizeConnectionStats [some ⟨5, 0, [("established", 5)]⟩, some ⟨0, 0, []⟩] =
      some ⟨5, 0, [("established", 5)]⟩ := by
  refine ⟨?_, ?_, by decide, by decide⟩
  · intro all h
    simp [finalizeConnectionStats, h]
  · intro all h
    simp [finalizeConnectionStats, h]

/-- C7 witness: the theorem applied to a concrete all-zero merge. -/
theorem c7_all_zero_merge_nulled_witness :
    finalizeConnectionStats [some ⟨0, 0, []⟩, none] = none :=
  c7_all_zero_merge_nulled.1 [some ⟨0, 0, []⟩, none] (by decide)

/-- C10: with a loaded resolver, `Lookup` always returns a non-empty string —
the ISO code when the dataset has a non-empty code for the IP and the
sentinel `XX` when the lookup errors or the code is empty — and consequently
every counted established row contributes to exactly one per-country bucket
(unresolvable remotes under `XX`), none are omitted. -/
theorem c10_lookup_never_empty :
    (∀ (r : GeoIPResolver) (ip : List ℕ), GeoIPResolver.Lookup (some r) ip ≠ "") ∧
    (∀ (r : GeoIPResolver) (ip : List ℕ), r.db ip = none →
      GeoIPResolver.Lookup (some r) ip = "XX") ∧
    (∀ (r : GeoIPResolver) (ip : List ℕ), r.db ip = some "" →
      GeoIPResolver.Lookup (some r) ip = "XX") ∧
    (∀ (r : GeoIPResolver) (ip : List ℕ) (c : String), r.db ip = some c → c ≠ "" →
      GeoIPResolver.Lookup (some r) ip = c) ∧
    (∀ (entries : List tcpEntry) (r : GeoIPResolver),
      countryConnSum (collectContainerConnections entries (some r)).2 =
        ((entries.filter (fun e => countedRow e && (e.state == "01"))).length : ℤ)) := by
  refine ⟨lookup_some_ne_empty, ?_, ?_, ?_, ?_⟩
  · intro r ip h
    simp [GeoIPResolver.Lookup, h]
  · intro r ip h
    simp [GeoIPResolver.Lookup, h]
  · intro r ip c h hc
    simp [GeoIPResolver.Lookup, h, hc]
  · intro entries r
    have hfold := connFold_country_counts r entries ⟨0, [], [], []⟩
    have hperm : countryConnSum (collectContainerConnections entries (some r)).2 =
        valsSum (entries.foldl (connFoldStep (some r)) ⟨0, [], [], []⟩).countryCounts := by
      show countryConnSum
          (((entries.foldl (connFoldStep (some r)) ⟨0, [], [], []⟩).countryCounts.map
            (fun p => CountryStats.mk p.1 p.2)).mergeSort connDescLe) =
        valsSum (entries.foldl (connFoldStep (some r)) ⟨0, [], [], []⟩).countryCounts
      rw [countryConnSum_perm (List.mergeSort_perm _ _), countryConnSum_map_mk]
    rw [hperm, hfold]
    simp [valsSum]

/-- C10 witness: a resolver whose dataset fails on every IP still buckets the
single established row (under `XX`). -/
theorem c10_lookup_never_empty_witness :
    GeoIPResolver.Lookup (some ⟨fun _ => none⟩) [9, 9, 9, 9] = "XX" ∧
    countryConnSum
        (collectContainerConnections [⟨[9, 9, 9, 9], 443, "01"⟩] (some ⟨fun _ => none⟩)).2 =
      1 := by
  refine ⟨c10_lookup_never_empty.2.1 ⟨fun _ => none⟩ [9, 9, 9, 9] rfl, ?_⟩
  have h := c10_lookup_never_empty.2.2.2.2 [⟨[9, 9, 9, 9], 443, "01"⟩] ⟨fun _ => none⟩
  rw [h]
  decide

theorem abs_floor_half_sub (y : ℚ) : |((⌊y + 1/2⌋ : ℚ)) - y| ≤ 1/2 := by
  have h1 : ((⌊y + 1/2⌋ : ℤ) : ℚ) ≤ y + 1/2 := Int.floor_le _
  have h2 : y + 1/2 < ((⌊y + 1/2⌋ : ℤ) : ℚ) + 1 := Int.lt_floor_add_one _
  rw [abs_le]
  constructor <;> linarith

theorem abs_goRound_sub (q : ℚ) : |((goRound q : ℚ)) - q| ≤ 1/2 := by
  unfold goRound
  split_ifs with h
  · have hneg := abs_floor_half_sub (-q)
    push_cast
    calc |-((⌊-q + 1/2⌋ : ℤ) : ℚ) - q| = |((⌊-q + 1/2⌋ : ℤ) : ℚ) - -q| := by
          rw [show -((⌊-q + 1/2⌋ : ℤ) : ℚ) - q = -(((⌊-q + 1/2⌋ : ℤ) : ℚ) - -q) by ring,
            abs_neg]
      _ ≤ 1/2 := hneg
  · exact abs_floor_half_sub q

theorem sum_goRound_close (xs : List ℚ) :
    |((xs.map (fun x => ((goRound x : ℚ)))).sum - xs.sum)| ≤ (xs.length : ℚ) / 2 := by
  induction xs with
  | nil => simp
  | cons x rest ih =>
      simp only [List.map_cons, List.sum_cons, List.length_cons]
      have h1 := abs_goRound_sub x
      calc |((goRound x : ℚ)) + (rest.map (fun x => ((goRound x : ℚ)))).sum -
              (x + rest.sum)|
          = |(((goRound x : ℚ)) - x) +
              ((rest.map (fun x => ((goRound x : ℚ)))).sum - rest.sum)| := by ring_nf
        _ ≤ |((goRound x : ℚ)) - x| +
              |(rest.map (fun x => ((goRound x : ℚ)))).sum - rest.sum| := abs_add _ _
        _ ≤ 1/2 + (rest.length : ℚ) / 2 := add_le_add h1 ih
        _ = (((rest.length + 1 : ℕ)) : ℚ) / 2 := by push_cast; ring

theorem sum_scaled_shares (raw : List (String × ℕ)) (cc : ℕ)
    (hT : (raw.map (fun p => p.2)).sum ≠ 0) :
    (raw.map (fun p => (p.2 : ℚ) * cc / (((raw.map (fun p => p.2)).sum : ℕ) : ℚ))).sum =
      cc := by
  have hcast : ((((raw.map (fun p => p.2)).sum : ℕ)) : ℚ) ≠ 0 := by
    exact_mod_cast hT
  have hmul : raw.map (fun p => (p.2 : ℚ) * cc / (((raw.map (fun p => p.2)).sum : ℕ) : ℚ)) =
      raw.map (fun p => (p.2 : ℚ) * ((cc : ℚ) / (((raw.map (fun p => p.2)).sum : ℕ) : ℚ))) := by
    apply List.map_congr_left
    intro p _
    ring
  rw [hmul, List.sum_map_mul_right]
  have hsum : (List.map (fun p : String × ℕ => (p.2 : ℚ)) raw).sum =
      ((((List.map (fun p => p.2) raw).sum : ℕ)) : ℚ) := by
    rw [Nat.cast_list_sum, List.map_map]
    rfl
  rw [hsum, mul_div_cancel₀ _ hcast]

/-- C8 counterexample: for raw counts {A:1, B:1, C:1} (snapshot total 3) and
one connected client, every estimated share is round(1/3) = 0, so the
reported counts sum to 0, not to the connected-client total 1. -/
theorem c8_scaled_sum_counterexample :
    ((scaleCountryCounts [("A", 1), ("B", 1), ("C", 1)] 1).map (fun p => p.2)).sum = 0 ∧
    (0 : ℤ) ≠ 1 := by
  constructor
  · norm_num [scaleCountryCounts, goRound]
  · decide

/-- C8 (amended): each country's reported count equals
round(raw_count × connected_clients / snapshot_total); the reported counts
sum to the connected-client total up to a rounding error of at most half a
count per country (and exactly in the spec's example: raw {A:3,B:1},
snapshot total 4, 8 connected clients give {A:6,B:2}, summing to 8) — but
not exactly in general. -/
theorem c8_country_scaling_estimator :
    (∀ (raw : List (String × ℕ)) (cc : ℕ) (name : String) (r : ℕ),
      (name, r) ∈ raw → (raw.map (fun p => p.2)).sum ≠ 0 →
      (name, goRound ((r : ℚ) * cc / (((raw.map (fun p => p.2)).sum : ℕ) : ℚ))) ∈
        scaleCountryCounts raw cc) ∧
    (∀ (raw : List (String × ℕ)) (cc : ℕ),
      (raw.map (fun p => p.2)).sum ≠ 0 →
      |(((scaleCountryCounts raw cc).map (fun p => (p.2 : ℚ))).sum - (cc : ℚ))| ≤
        (raw.length : ℚ) / 2) ∧
    scaleCountryCounts [("A", 3), ("B", 1)] 8 = [("A", 6), ("B", 2)] ∧
    ((scaleCountryCounts [("A", 3), ("B", 1)] 8).map (fun p => p.2)).sum = 8 := by
  refine ⟨?_, ?_, ?_, ?_⟩
  · intro raw cc name r hmem hT
    unfold scaleCountryCounts
    rw [if_neg hT]
    exact List.mem_map_of_mem _ hmem
  · intro raw cc hT
    unfold scaleCountryCounts
    rw [if_neg hT]
    have hclose := sum_goRound_close
      (raw.map (fun p => (p.2 : ℚ) * cc / (((raw.map (fun p => p.2)).sum : ℕ) : ℚ)))
    rw [sum_scaled_shares raw cc hT] at hclose
    simp only [List.map_map, List.length_map] at hclose ⊢
    simpa [Function.comp] using hclose
  · norm_num [scaleCountryCounts, goRound]
  · norm_num [scaleCountryCounts, goRound]

/-- C8 witness: the amended theorem applied to the spec's concrete example —
raw {A:3,B:1}, snapshot total 4, 8 connected clients. -/
theorem c8_country_scaling_estimator_witness :
    (([("A", 3), ("B", 1)] : List (String × ℕ)).map (fun p => p.2)).sum ≠ 0 ∧
    ("A", goRound ((3 : ℚ) * 8 /
        ((((([("A", 3), ("B", 1)] : List (String × ℕ)).map (fun p => p.2)).sum : ℕ)) : ℚ))) ∈
      scaleCountryCounts [("A", 3), ("B", 1)] 8 ∧
    |((scaleCountryCounts [("A", 3), ("B", 1)] 8).map (fun p => (p.2 : ℚ))).sum - (8 : ℚ)| ≤
      ((([("A", 3), ("B", 1)] : List (String × ℕ)).length : ℚ)) / 2 := by
  refine ⟨by decide, ?_, ?_⟩
  · exact c8_country_scaling_estimator.1 [("A", 3), ("B", 1)] 8 "A" 3 (by decide) (by decide)
  · exact c8_country_scaling_estimator.2.1 [("A", 3), ("B", 1)] 8 (by decide)
